import Mathlib

/-!
Verification of the retrieval-augmented-generation pipeline of this
repository: the chunker (`DocumentLoader.chunk_text`), the vector store
(`VectorStore`) and the query orchestrator (`RAGEngine`).

The embedding is shallow: Python strings become `List Char`, Python `int`
becomes `Int` (so negative indices and Python's negative-index/slice
semantics are modelled exactly), floating point scores become `ℚ`
(the claims under study are about the algebraic shape of the score
formulas, not about rounding), and the external embedding and generation
providers become function parameters.  The `while` loop of `chunk_text`
is modelled with explicit fuel: a `none` result means the loop did not
return normally within the given fuel (in particular a genuinely
divergent run returns `none` for every fuel).
-/

/-- Python `s[i]` character access on a string: non-negative indices from
the front, negative indices from the back, `none` models `IndexError`. -/
def pyCharAt (t : List Char) (i : Int) : Option Char :=
  if 0 ≤ i then t[i.toNat]?
  else if 0 ≤ i + (t.length : Int) then t[(i + (t.length : Int)).toNat]?
  else none

/-- Resolve one endpoint of a Python slice `s[a:b]` to an index clamped
into `[0, len]`, with negative values counted from the back. -/
def pySliceIdx (n : Nat) (x : Int) : Nat :=
  if x < 0 then (x + (n : Int)).toNat else min x.toNat n

/-- Python slice `s[a:b]` with full clamping semantics. -/
def pySlice (t : List Char) (a b : Int) : List Char :=
  (t.take (pySliceIdx t.length b)).drop (pySliceIdx t.length a)

/-- Python `str.isspace`-style whitespace set used by `str.strip()`. -/
def pyIsSpace (c : Char) : Bool :=
  c = ' ' || c = '\t' || c = '\n' || c = '\r' || c = '\x0b' || c = '\x0c'

/-- Python `str.strip()`: remove leading and trailing whitespace. -/
def pyStrip (t : List Char) : List Char :=
  ((t.dropWhile pyIsSpace).reverse.dropWhile pyIsSpace).reverse

/-- The break characters of `DocumentLoader.chunk_text`
(`['\n', '。', '.', '!', '?']`). -/
def isBreakChar (c : Char) : Bool :=
  c = '\n' || c = '。' || c = '.' || c = '!' || c = '?'

/-- Result of the backward boundary scan
`for i in range(end, max(start, end - 100), -1)`. -/
inductive ScanRes where
  | err : ScanRes
  | found : Int → ScanRes
  | nofind : ScanRes
deriving DecidableEq, Repr

/-- The backward scan of `chunk_text`: starting at index `i` and taking at
most `n` steps downward, return the first (largest) index holding a break
character; `err` models an `IndexError` raised by `text[i]`. -/
def scanBack (t : List Char) : Nat → Int → ScanRes
  | 0, _ => ScanRes.nofind
  | n + 1, i =>
    match pyCharAt t i with
    | none => ScanRes.err
    | some c => if isBreakChar c then ScanRes.found i else scanBack t n (i - 1)

/-- A chunk produced by `DocumentLoader.chunk_text`: the dict
`{'text': ..., 'start': ..., 'end': ...}` (`end` is a Lean keyword, so the
field is named `endPos`). -/
structure PyChunk where
  text : List Char
  start : Int
  endPos : Int
deriving DecidableEq, Repr

/-- One tail of a loop iteration of `chunk_text` after the cut position
`ed` has been fixed: trim the slice, append it when non-empty, and compute
the next `start` (`end - chunk_overlap` when `end < len(text)`, else
`end`). -/
def chunkStep (t : List Char) (ov start ed : Int) (acc : List PyChunk) :
    Int × List PyChunk :=
  (if ed < (t.length : Int) then ed - ov else ed,
   if (pyStrip (pySlice t start ed)).isEmpty then acc
   else acc ++ [⟨pyStrip (pySlice t start ed), start, ed⟩])

/-- The `while start < len(text)` loop of `chunk_text`, with fuel.
`none` means the loop did not return normally within `fuel` iterations
(or an `IndexError` occurred in the backward scan). -/
def chunkLoop (t : List Char) (cs ov : Int) : Nat → Int → List PyChunk →
    Option (List PyChunk)
  | 0, _, _ => none
  | n + 1, start, acc =>
    if start < (t.length : Int) then
      match (if start + cs < (t.length : Int) then
               scanBack t (start + cs - max start (start + cs - 100)).toNat
                 (start + cs)
             else ScanRes.nofind) with
      | ScanRes.err => none
      | ScanRes.found i =>
        chunkLoop t cs ov n (chunkStep t ov start (i + 1) acc).1
          (chunkStep t ov start (i + 1) acc).2
      | ScanRes.nofind =>
        chunkLoop t cs ov n (chunkStep t ov start (start + cs) acc).1
          (chunkStep t ov start (start + cs) acc).2
    else some acc

/-- `DocumentLoader.chunk_text(text, chunk_size, chunk_overlap)`:
single untrimmed chunk when `len(text) <= chunk_size`, otherwise the
windowed loop starting at 0. -/
def chunk_text (t : List Char) (cs ov : Int) (fuel : Nat) :
    Option (List PyChunk) :=
  if (t.length : Int) ≤ cs then some [⟨t, 0, (t.length : Int)⟩]
  else chunkLoop t cs ov fuel 0 []

theorem scanBack_found_spec (t : List Char) :
    ∀ (n : Nat) (i j : Int), scanBack t n i = ScanRes.found j →
      (∃ c, pyCharAt t j = some c ∧ isBreakChar c = true) ∧
      j ≤ i ∧ i - (n : Int) < j ∧
      ∀ k, j < k → k ≤ i → ∃ c, pyCharAt t k = some c ∧ isBreakChar c = false := by
  intro n
  induction n with
  | zero => intro i j h; simp [scanBack] at h
  | succ m ih =>
    intro i j h
    unfold scanBack at h
    cases hc : pyCharAt t i with
    | none => rw [hc] at h; simp at h
    | some c =>
      rw [hc] at h
      by_cases hb : isBreakChar c
      · simp only [hb, if_true] at h
        have hj : j = i := by cases h; rfl
        subst hj
        refine ⟨⟨c, hc, hb⟩, le_refl _, by omega, ?_⟩
        intro k hk1 hk2; omega
      · simp only [hb, if_false] at h
        obtain ⟨h1, h2, h3, h4⟩ := ih (i - 1) j h
        refine ⟨h1, by omega, by omega, ?_⟩
        intro k hk1 hk2
        rcases lt_or_eq_of_le hk2 with h5 | h5
        · exact h4 k hk1 (by omega)
        · subst h5
          exact ⟨c, hc, by simpa using hb⟩

theorem scanBack_nofind_spec (t : List Char) :
    ∀ (n : Nat) (i : Int), scanBack t n i = ScanRes.nofind →
      ∀ k, i - (n : Int) < k → k ≤ i →
        ∃ c, pyCharAt t k = some c ∧ isBreakChar c = false := by
  intro n
  induction n with
  | zero => intro i _ k hk1 hk2; omega
  | succ m ih =>
    intro i h k hk1 hk2
    unfold scanBack at h
    cases hc : pyCharAt t i with
    | none => rw [hc] at h; simp at h
    | some c =>
      rw [hc] at h
      by_cases hb : isBreakChar c
      · simp only [hb, if_true] at h; cases h
      · simp only [hb, if_false] at h
        rcases lt_or_eq_of_le hk2 with h5 | h5
        · exact ih (i - 1) h k (by omega) (by omega)
        · subst h5
          exact ⟨c, hc, by simpa using hb⟩

theorem scanBack_finds (t : List Char) :
    ∀ (n : Nat) (i j : Int), j ≤ i → i - (n : Int) < j →
      (∃ c, pyCharAt t j = some c ∧ isBreakChar c = true) →
      (∀ k, j < k → k ≤ i → ∃ c, pyCharAt t k = some c ∧ isBreakChar c = false) →
      scanBack t n i = ScanRes.found j := by
  intro n
  induction n with
  | zero => intro i j h1 h2 _ _; omega
  | succ m ih =>
    intro i j h1 h2 hb hnb
    rcases eq_or_lt_of_le h1 with he | hlt
    · obtain ⟨c, hc, hbc⟩ := hb
      subst he
      unfold scanBack
      rw [hc]
      simp [hbc]
    · obtain ⟨c, hc, hbc⟩ := hnb i hlt (le_refl i)
      unfold scanBack
      rw [hc]
      simp only [hbc, if_false]
      exact ih (i - 1) j (by omega) (by omega) hb (fun k hk1 hk2 => hnb k hk1 (by omega))

theorem chunkLoop_stuck (t : List Char) (cs ov j : Int)
    (hb : ∃ c, pyCharAt t j = some c ∧ isBreakChar c = true)
    (hnb : ∀ k, j < k → k ≤ j + 1 - ov + cs →
      ∃ c, pyCharAt t k = some c ∧ isBreakChar c = false)
    (hj0 : 0 ≤ j) (hneg : j + 1 - ov < 0) (hreg : cs ≤ ov + 98) (hoc : ov < cs)
    (hlen : j + 1 - ov + cs < (t.length : Int)) :
    ∀ (fuel : Nat) (acc : List PyChunk),
      chunkLoop t cs ov fuel (j + 1 - ov) acc = none := by
  intro fuel
  induction fuel with
  | zero => intro acc; rfl
  | succ n ih =>
    intro acc
    have hlt : j + 1 - ov < (t.length : Int) := by omega
    have hscan : scanBack t
        ((j + 1 - ov) + cs - max (j + 1 - ov) ((j + 1 - ov) + cs - 100)).toNat
        ((j + 1 - ov) + cs) = ScanRes.found j := by
      apply scanBack_finds
      · omega
      · omega
      · exact hb
      · intro k hk1 hk2; exact hnb k hk1 (by omega)
    unfold chunkLoop
    rw [if_pos hlt, if_pos (by omega : (j + 1 - ov) + cs < (t.length : Int)), hscan]
    show chunkLoop t cs ov n (chunkStep t ov (j + 1 - ov) (j + 1) acc).1
      (chunkStep t ov (j + 1 - ov) (j + 1) acc).2 = none
    have hstep : (chunkStep t ov (j + 1 - ov) (j + 1) acc).1 = j + 1 - ov := by
      simp only [chunkStep]
      rw [if_pos (by omega : j + 1 < (t.length : Int))]
    rw [hstep]
    exact ih _

/-- The per-chunk invariant (amended claim C3). -/
def GoodChunk (t : List Char) (cs : Int) (c : PyChunk) : Prop :=
  0 ≤ c.start ∧ c.start < c.endPos ∧
  c.text = pyStrip (pySlice t c.start c.endPos) ∧ c.text ≠ [] ∧
  (c.endPos ≤ (t.length : Int) ∨
    ((t.length : Int) ≤ c.endPos ∧ c.endPos = c.start + cs))

theorem goodChunk_mk {t : List Char} {cs start ed : Int} (h1 : 0 ≤ start)
    (h2 : start < ed) (h3 : pyStrip (pySlice t start ed) ≠ [])
    (h4 : ed ≤ (t.length : Int) ∨
      ((t.length : Int) ≤ ed ∧ ed = start + cs)) :
    GoodChunk t cs ⟨pyStrip (pySlice t start ed), start, ed⟩ :=
  ⟨h1, h2, rfl, h3, h4⟩

theorem chunkStep_mem {t : List Char} {ov start ed : Int} {acc : List PyChunk}
    {P : PyChunk → Prop} (hacc : ∀ c ∈ acc, P c)
    (hnew : pyStrip (pySlice t start ed) ≠ [] →
      P ⟨pyStrip (pySlice t start ed), start, ed⟩) :
    ∀ c ∈ (chunkStep t ov start ed acc).2, P c := by
  intro c hc
  simp only [chunkStep] at hc
  by_cases he : (pyStrip (pySlice t start ed)).isEmpty
  · rw [if_pos he] at hc
    exact hacc c hc
  · rw [if_neg he] at hc
    rcases List.mem_append.mp hc with h | h
    · exact hacc c h
    · have hc2 := List.mem_singleton.mp h
      subst hc2
      exact hnew (by simpa [List.isEmpty_iff] using he)

theorem chunkLoop_exit (t : List Char) (cs ov : Int) :
    ∀ (fuel : Nat) (s : Int) (acc r : List PyChunk), (t.length : Int) ≤ s →
      chunkLoop t cs ov fuel s acc = some r → r = acc := by
  intro fuel
  cases fuel with
  | zero => intro s acc r _ hh; simp [chunkLoop] at hh
  | succ n =>
    intro s acc r h hh
    unfold chunkLoop at hh
    rw [if_neg (by omega)] at hh
    exact (Option.some_inj.mp hh).symm

theorem chunkLoop_good (t : List Char) (cs ov : Int) (hov0 : 0 ≤ ov)
    (hoc : ov < cs) (hcl : cs < (t.length : Int)) :
    ∀ (fuel : Nat) (start : Int) (acc chunks : List PyChunk), 0 ≤ start →
      (∀ c ∈ acc, GoodChunk t cs c) →
      (∀ c ∈ acc, c.endPos ≤ (t.length : Int)) →
      chunkLoop t cs ov fuel start acc = some chunks →
      (∀ c ∈ chunks, GoodChunk t cs c) ∧
      (∀ c ∈ chunks.dropLast, c.endPos ≤ (t.length : Int)) := by
  intro fuel
  induction fuel with
  | zero => intro start acc chunks _ _ _ hrun; simp [chunkLoop] at hrun
  | succ n ih =>
    intro start acc chunks hs hg hbd hrun
    unfold chunkLoop at hrun
    by_cases hlt : start < (t.length : Int)
    swap
    · rw [if_neg hlt] at hrun
      have hch := Option.some_inj.mp hrun
      subst hch
      exact ⟨hg, fun c hc => hbd c ((List.dropLast_sublist acc).subset hc)⟩
    rw [if_pos hlt] at hrun
    by_cases he0 : start + cs < (t.length : Int)
    · cases hscan : scanBack t
          (start + cs - max start (start + cs - 100)).toNat (start + cs) with
      | err =>
        simp only [if_pos he0, hscan] at hrun
        exact Option.noConfusion hrun
      | found i =>
        simp only [if_pos he0, hscan] at hrun
        obtain ⟨hbk, hile, hlow, hnb⟩ := scanBack_found_spec t _ _ _ hscan
        have hmax : max start (start + cs - 100) < i := by omega
        have histart : start < i := by omega
        have hi1len : i + 1 ≤ (t.length : Int) := by omega
        by_cases hi1 : i + 1 < (t.length : Int)
        · have hstep1 : (chunkStep t ov start (i + 1) acc).1 = i + 1 - ov := by
            simp only [chunkStep]
            rw [if_pos hi1]
          rw [hstep1] at hrun
          by_cases hneg : i + 1 - ov < 0
          · exfalso
            have hstuck := chunkLoop_stuck t cs ov i hbk
              (fun k hk1 hk2 => hnb k hk1 (by omega))
              (by omega) hneg (by omega) hoc (by omega) n
              (chunkStep t ov start (i + 1) acc).2
            rw [hstuck] at hrun
            exact Option.noConfusion hrun
          · refine ih (i + 1 - ov) _ chunks (by omega) ?_ ?_ hrun
            · refine chunkStep_mem hg ?_
              intro hne
              exact goodChunk_mk hs (by omega) hne (Or.inl (by omega))
            · refine chunkStep_mem hbd ?_
              intro _
              show i + 1 ≤ (t.length : Int)
              omega
        · have hstep1 : (chunkStep t ov start (i + 1) acc).1 = i + 1 := by
            simp only [chunkStep]
            rw [if_neg hi1]
          rw [hstep1] at hrun
          refine ih (i + 1) _ chunks (by omega) ?_ ?_ hrun
          · refine chunkStep_mem hg ?_
            intro hne
            exact goodChunk_mk hs (by omega) hne (Or.inl (by omega))
          · refine chunkStep_mem hbd ?_
            intro _
            show i + 1 ≤ (t.length : Int)
            omega
      | nofind =>
        simp only [if_pos he0, hscan] at hrun
        have hstep1 : (chunkStep t ov start (start + cs) acc).1 =
            start + cs - ov := by
          simp only [chunkStep]
          rw [if_pos he0]
        rw [hstep1] at hrun
        refine ih (start + cs - ov) _ chunks (by omega) ?_ ?_ hrun
        · refine chunkStep_mem hg ?_
          intro hne
          exact goodChunk_mk hs (by omega) hne (Or.inl (by omega))
        · refine chunkStep_mem hbd ?_
          intro _
          show start + cs ≤ (t.length : Int)
          omega
    · simp only [if_neg he0] at hrun
      have hstep1 : (chunkStep t ov start (start + cs) acc).1 = start + cs := by
        simp only [chunkStep]
        rw [if_neg he0]
      rw [hstep1] at hrun
      have hchunks : chunks = (chunkStep t ov start (start + cs) acc).2 :=
        chunkLoop_exit t cs ov n _ _ _ (by omega) hrun
      subst hchunks
      constructor
      · refine chunkStep_mem hg ?_
        intro hne
        exact goodChunk_mk hs (by omega) hne (Or.inr ⟨by omega, rfl⟩)
      · simp only [chunkStep]
        by_cases he : (pyStrip (pySlice t start (start + cs))).isEmpty
        · rw [if_pos he]
          exact fun c hc => hbd c ((List.dropLast_sublist acc).subset hc)
        · rw [if_neg he]
          rw [List.dropLast_concat]
          exact hbd

/-- The input on which `chunk_text` diverges: `"a.bcdefghijk"` with
`chunk_size = 5`, `chunk_overlap = 3`. -/
def badText : List Char := ['a', '.', 'b', 'c', 'd', 'e', 'f', 'g', 'h', 'i', 'j', 'k']

theorem chunkLoop_badText_fix (n : Nat) (acc : List PyChunk) :
    chunkLoop badText 5 3 (n + 1) (-1) acc = chunkLoop badText 5 3 n (-1) acc := rfl

theorem chunkLoop_badText_none : ∀ (n : Nat) (acc : List PyChunk),
    chunkLoop badText 5 3 n (-1) acc = none := by
  intro n
  induction n with
  | zero => intro acc; rfl
  | succ k ih => intro acc; rw [chunkLoop_badText_fix]; exact ih acc

/-- C2: the claim asserts the chunking loop terminates for every text and
every `0 ≤ chunk_overlap < chunk_size`.  The code violates this: on the
text `"a.bcdefghijk"` with `chunk_size = 5` and `chunk_overlap = 3` the
boundary snap at the `'.'` (index 1) first sets `start = 2 - 3 = -1`, and
every following iteration snaps at the same `'.'` again and resets
`start` to `-1`: the loop never returns, for any amount of fuel. -/
theorem chunk_text_diverges (fuel : Nat) : chunk_text badText 5 3 fuel = none := by
  cases fuel with
  | zero => rfl
  | succ n =>
    show chunkLoop badText 5 3 (n + 1) 0 [] = none
    have h1 : chunkLoop badText 5 3 (n + 1) 0 [] =
        chunkLoop badText 5 3 n (-1) [⟨['a', '.'], 0, 2⟩] := rfl
    rw [h1, chunkLoop_badText_none]

/-- C3 (amended): for every terminating multi-window run of `chunk_text`
with `0 ≤ chunk_overlap < chunk_size < len(text)`, every produced chunk
satisfies `0 ≤ start < end`, its `text` is the whitespace-trimmed Python
slice `text[start:end]` and is non-empty, and `end ≤ len(text)` — except
possibly the final chunk, whose `end` is the unclamped `start +
chunk_size` and may exceed `len(text)` (every non-final chunk has
`end ≤ len(text)`). -/
theorem chunk_text_multi_window_bounds (t : List Char) (cs ov : Int)
    (fuel : Nat) (chunks : List PyChunk) (hov0 : 0 ≤ ov) (hoc : ov < cs)
    (hcl : cs < (t.length : Int))
    (hrun : chunk_text t cs ov fuel = some chunks) :
    (∀ c ∈ chunks, GoodChunk t cs c) ∧
    (∀ c ∈ chunks.dropLast, c.endPos ≤ (t.length : Int)) := by
  unfold chunk_text at hrun
  rw [if_neg (by omega)] at hrun
  exact chunkLoop_good t cs ov hov0 hoc hcl fuel 0 [] chunks (le_refl 0)
    (by simp) (by simp) hrun

/-- The six-character text of the C3 counterexample. -/
def textC3 : List Char := ['a', 'b', 'c', 'd', 'e', 'f']

theorem chunk_text_multi_window_bounds_witness :
    (∀ c ∈ [(⟨['a', 'b', 'c', 'd', 'e'], 0, 5⟩ : PyChunk), ⟨['e', 'f'], 4, 9⟩],
      GoodChunk textC3 5 c) ∧
    (∀ c ∈ ([(⟨['a', 'b', 'c', 'd', 'e'], 0, 5⟩ : PyChunk),
        ⟨['e', 'f'], 4, 9⟩]).dropLast, c.endPos ≤ (textC3.length : Int)) :=
  chunk_text_multi_window_bounds textC3 5 1 10 _ (by decide) (by decide)
    (by decide) (by decide)

/-- C3 counterexample: on `"abcdef"` with `chunk_size = 5`,
`chunk_overlap = 1`, the final window starts at 4, and the stored `end`
is the unclamped `4 + 5 = 9`, which exceeds `len(text) = 6`: the claimed
invariant `end <= len(text)` fails for the produced chunk
`{text: "ef", start: 4, end: 9}`. -/
theorem chunk_text_end_exceeds_length :
    chunk_text textC3 5 1 10 =
      some [⟨['a', 'b', 'c', 'd', 'e'], 0, 5⟩, ⟨['e', 'f'], 4, 9⟩] ∧
    ¬ (∀ c ∈ [(⟨['a', 'b', 'c', 'd', 'e'], 0, 5⟩ : PyChunk), ⟨['e', 'f'], 4, 9⟩],
        0 ≤ c.start ∧ c.start < c.endPos ∧ c.endPos ≤ (textC3.length : Int) ∧
        c.text = pyStrip (pySlice textC3 c.start c.endPos)) := by
  constructor
  · decide
  · decide

/-- The external embedding model (`SentenceTransformer`): an opaque
encoder plus its reported sentence-embedding dimension. -/
structure EmbedModel where
  encode : String → List ℚ
  dim : Nat

/-- One metadata entry of `VectorStore.add_documents`
(`{'text', 'chunk_index', 'source', 'start'?, 'end'?}`).  `chunk_index`
is optional because loaded metadata need not carry it (`search` uses
`.get('chunk_index', idx)`); `add_documents` always sets it.  The dict
key `end` is a Lean keyword, so the field is named `stop`. -/
structure Metadata where
  text : String
  chunk_index : Option Int
  source : List (String × String)
  start : Option Int
  stop : Option Int
deriving DecidableEq

/-- An input chunk dict passed to `add_documents` (`'text'` required,
`'start'`/`'end'` optional). -/
structure AddChunk where
  text : String
  start : Option Int
  stop : Option Int
deriving DecidableEq

/-- The `VectorStore`: the embedding model, its name, the stored
dimension, the FAISS `IndexFlatL2` contents (one row per added vector,
in insertion order) and the parallel metadata list. -/
structure VectorStore where
  embedding_model : String → List ℚ
  model_name : String
  dimension : Nat
  vectors : List (List ℚ)
  metadata : List Metadata

/-- `VectorStore.__init__(embedding_model_name, dimension)`:
`st` models the external `SentenceTransformer` constructor.  The
`dimension` argument is ignored; the stored dimension is the one
reported by the loaded model. -/
def VectorStore.init (st : String → EmbedModel) (embedding_model_name : String)
    (dimension : Nat) : VectorStore :=
  { embedding_model := (st embedding_model_name).encode
    model_name := embedding_model_name
    dimension := (st embedding_model_name).dim
    vectors := []
    metadata := [] }

/-- The metadata-append loop of `add_documents`: each entry's
`chunk_index` is `len(self.metadata)` at the moment of its append. -/
def appendMeta (src : List (String × String)) :
    List Metadata → List AddChunk → List Metadata
  | md, [] => md
  | md, c :: rest =>
    appendMeta src
      (md ++ [⟨c.text, some (md.length : Int), src, c.start, c.stop⟩]) rest

/-- `VectorStore.add_documents(chunks, source_info)`: no-op on an empty
chunk list; otherwise batch-encode all texts, append the vectors to the
index and run the metadata-append loop (`source_info or {}` is the empty
mapping when `source_info` is absent or empty). -/
def VectorStore.add_documents (s : VectorStore) (chunks : List AddChunk)
    (source_info : Option (List (String × String))) : VectorStore :=
  if chunks.isEmpty then s
  else
    { s with
      vectors := s.vectors ++ chunks.map (fun c => s.embedding_model c.text)
      metadata := appendMeta (source_info.getD []) s.metadata chunks }

/-- A retrieval result of `VectorStore.search`
(`{'text', 'score', 'similarity', 'metadata', 'chunk_index'}`). -/
structure SearchResult where
  text : String
  score : ℚ
  similarity : ℚ
  metadata : List (String × String)
  chunk_index : Int
deriving DecidableEq

/-- Python `self.metadata[idx]` list access: non-negative indices from the
front, negative indices from the back, `none` models `IndexError`. -/
def pyGetMeta (md : List Metadata) (i : Int) : Option Metadata :=
  if 0 ≤ i then md[i.toNat]?
  else if 0 ≤ i + (md.length : Int) then md[(i + (md.length : Int)).toNat]?
  else none

/-- One retrieval result built from a metadata entry: `score` is the raw
distance, `similarity = 1 / (1 + distance)`, `metadata` is the entry's
source mapping, `chunk_index` is `entry.get('chunk_index', idx)`. -/
def mkResult (m : Metadata) (d : ℚ) (idx : Int) : SearchResult :=
  ⟨m.text, d, 1 / (1 + d), m.source, m.chunk_index.getD idx⟩

/-- The result-building loop of `search` over the `(distance, idx)` pairs
returned by the FAISS index: a hit is kept only `if idx <
len(self.metadata)`; keeping it reads `self.metadata[idx]` with Python
indexing (`none` models the `IndexError` raised when `idx < -len`). -/
def buildResults (md : List Metadata) : List (ℚ × Int) →
    Option (List SearchResult)
  | [] => some []
  | (d, idx) :: rest =>
    if idx < (md.length : Int) then
      match pyGetMeta md idx with
      | none => none
      | some m => (buildResults md rest).map (fun rs => mkResult m d idx :: rs)
    else buildResults md rest

/-- Squared Euclidean (L2) distance between two vectors, the metric of
`faiss.IndexFlatL2`. -/
def sqDist (a b : List ℚ) : ℚ :=
  ((a.zip b).map (fun p => (p.1 - p.2) * (p.1 - p.2))).sum

/-- Insert one `(distance, index)` hit into a list sorted by ascending
distance (ties broken by ascending index, as in a flat FAISS index). -/
def insertHit (h : ℚ × Int) : List (ℚ × Int) → List (ℚ × Int)
  | [] => [h]
  | x :: xs =>
    if h.1 < x.1 ∨ (h.1 = x.1 ∧ h.2 ≤ x.2) then h :: x :: xs
    else x :: insertHit h xs

/-- `faiss.IndexFlatL2.search`: the `k` nearest stored vectors to the
query, as `(squared-L2-distance, position)` pairs in ascending order. -/
def knn (vecs : List (List ℚ)) (q : List ℚ) (k : Nat) : List (ℚ × Int) :=
  ((vecs.enum.map (fun p => (sqDist q p.2, (p.1 : Int)))).foldr
    insertHit []).take k

/-- `VectorStore.search(query, top_k)` together with the trace of texts
sent to the embedding provider (second component): an empty index returns
immediately with no encode call; otherwise the query is encoded once and
the `min(top_k, ntotal)` nearest hits are turned into results. -/
def VectorStore.searchTrace (s : VectorStore) (q : String) (top_k : Nat) :
    Option (List SearchResult) × List String :=
  if s.vectors.length = 0 then (some [], [])
  else
    (buildResults s.metadata
      (knn s.vectors (s.embedding_model q) (min top_k s.vectors.length)), [q])

/-- `VectorStore.search(query, top_k)`: the results alone. -/
def VectorStore.search (s : VectorStore) (q : String) (top_k : Nat) :
    Option (List SearchResult) :=
  (VectorStore.searchTrace s q top_k).1

/-- `VectorStore.get_stats()`: `{'total_chunks', 'dimension', 'model'}`. -/
def VectorStore.get_stats (s : VectorStore) : Nat × Nat × String :=
  (s.vectors.length, s.dimension, s.model_name)

/-- `VectorStore.clear()`: fresh `IndexFlatL2(self.dimension)` and empty
metadata; dimension and model are kept. -/
def VectorStore.clear (s : VectorStore) : VectorStore :=
  { s with vectors := [], metadata := [] }

/-- `VectorStore.save(index_path, metadata_path)`: the two serialized
artifacts (the numeric index contents and the metadata list). -/
def VectorStore.save (s : VectorStore) : List (List ℚ) × List Metadata :=
  (s.vectors, s.metadata)

/-- `VectorStore.load(index_path, metadata_path)`: each artifact replaces
the corresponding component only when it exists (`none` models a missing
file, which is a no-op for that component). -/
def VectorStore.load (s : VectorStore) (idxArt : Option (List (List ℚ)))
    (mdArt : Option (List Metadata)) : VectorStore :=
  let s1 := match idxArt with
    | some v => { s with vectors := v }
    | none => s
  match mdArt with
  | some m => { s1 with metadata := m }
  | none => s1

/-- `VectorStore.search` in state-passing form: the method body contains
no assignment to `self`, so the returned store is the receiver. -/
def VectorStore.searchM (s : VectorStore) (q : String) (top_k : Nat) :
    Option (List SearchResult) × VectorStore :=
  (VectorStore.search s q top_k, s)

/-- A mutation of the `VectorStore` considered by the parallel-array
invariant: `add_documents` or `clear`. -/
inductive VSOp where
  | add (chunks : List AddChunk) (source_info : Option (List (String × String)))
  | clear
deriving Inhabited

/-- Apply one operation to a store. -/
def VectorStore.applyOp (s : VectorStore) : VSOp → VectorStore
  | VSOp.add chunks src => VectorStore.add_documents s chunks src
  | VSOp.clear => VectorStore.clear s

/-- The parallel-array invariant of the `VectorStore`: one vector per
metadata entry, and each entry's `chunk_index` is its position. -/
def VSInv (s : VectorStore) : Prop :=
  s.vectors.length = s.metadata.length ∧
  ∀ (i : Nat) (h : i < s.metadata.length),
    s.metadata[i].chunk_index = some (i : Int)

/-- A chat request to the generation provider: model identifier, ordered
`(role, content)` messages, temperature. -/
structure LLMRequest where
  model : String
  messages : List (String × String)
  temperature : ℚ
deriving DecidableEq

/-- The fixed system instruction of `RAGEngine.query`. -/
def systemMessage : String :=
  "You are an assistant that answers questions based on document content. Please answer questions based on the provided document content. If there is no relevant information in the documents, please state so."

/-- `RAGEngine`: the vector store and the configured model name (the
OpenAI client itself is modelled as the `llm` call parameter of
`query`). -/
structure RAGEngine where
  vector_store : VectorStore
  model : String

/-- `RAGEngine.__init__`: fails fast with a configuration error when the
generation credential is absent. -/
def RAGEngine.init (vector_store : VectorStore) (model : String)
    (api_key : Option String) : Except String RAGEngine :=
  match api_key with
  | none => Except.error "Please set OPENAI_API_KEY in .env file"
  | some _ => Except.ok ⟨vector_store, model⟩

/-- `RAGEngine._build_context(retrieved_docs)`: fixed sentinel when no
results, otherwise each text labeled with its 1-based rank. -/
def build_context (retrieved_docs : List SearchResult) : String :=
  if retrieved_docs.isEmpty then "No relevant documents found."
  else
    String.intercalate "\n"
      (retrieved_docs.enum.map
        (fun p => "[Document Chunk " ++ toString (p.1 + 1) ++ "]\n" ++
          p.2.text ++ "\n"))

/-- `RAGEngine._build_prompt(question, context)`. -/
def build_prompt (question context : String) : String :=
  "\n        Please answer the question based on the following document content.\n        Document Content: " ++
    context ++ "\n        Question: " ++ question ++
    "\n        Please answer the question based on the document content above. If there is no relevant information in the documents, please state that the answer cannot be found in the documents.\n        "

/-- `RAGEngine.query`'s result dict
(`{'answer', 'retrieved_docs', 'context'}`). -/
structure QueryResult where
  answer : String
  retrieved_docs : List SearchResult
  context : String
deriving DecidableEq

/-- `RAGEngine.query(question, top_k, temperature)`: retrieve, build
context and prompt, call the generation provider (`llm`); any provider
error is captured and turned into the answer string
`"Error generating answer: " ++ e`; retrieval results and context are
returned unchanged in either case.  A `none` from `search` (a retrieval
fault) propagates. -/
def RAGEngine.query (llm : LLMRequest → Except String String)
    (eng : RAGEngine) (question : String) (top_k : Nat) (temperature : ℚ) :
    Option QueryResult :=
  match VectorStore.search eng.vector_store question top_k with
  | none => none
  | some retrieved =>
    some
      { answer :=
          match llm ⟨eng.model,
              [("system", systemMessage),
               ("user", build_prompt question (build_context retrieved))],
              temperature⟩ with
          | Except.ok a => a
          | Except.error e => "Error generating answer: " ++ e
        retrieved_docs := retrieved
        context := build_context retrieved }

/-- `RAGEngine.query` in state-passing form: the method mutates neither
the engine nor its vector store. -/
def RAGEngine.queryM (llm : LLMRequest → Except String String)
    (eng : RAGEngine) (question : String) (top_k : Nat) (temperature : ℚ) :
    Option QueryResult × RAGEngine :=
  (RAGEngine.query llm eng question top_k temperature, eng)

theorem appendMeta_length (src : List (String × String)) :
    ∀ (chunks : List AddChunk) (md : List Metadata),
      (appendMeta src md chunks).length = md.length + chunks.length := by
  intro chunks
  induction chunks with
  | nil => intro md; simp [appendMeta]
  | cons c rest ih =>
    intro md
    show (appendMeta src
      (md ++ [⟨c.text, some (md.length : Int), src, c.start, c.stop⟩])
      rest).length = md.length + (rest.length + 1)
    rw [ih]
    simp
    omega

theorem appendMeta_chunk_index (src : List (String × String)) :
    ∀ (chunks : List AddChunk) (md : List Metadata),
      (∀ (i : Nat) (h : i < md.length),
        md[i].chunk_index = some (i : Int)) →
      ∀ (i : Nat) (h : i < (appendMeta src md chunks).length),
        (appendMeta src md chunks)[i].chunk_index = some (i : Int) := by
  intro chunks
  induction chunks with
  | nil => intro md hmd; exact hmd
  | cons c rest ih =>
    intro md hmd
    apply ih
    intro i h
    rcases Nat.lt_or_ge i md.length with hi | hi
    · rw [List.getElem_append_left hi]
      exact hmd i hi
    · have hieq : i = md.length := by
        simp at h
        omega
      subst hieq
      rw [List.getElem_concat_length]
      rfl

theorem applyOp_inv (s : VectorStore) (op : VSOp) (hs : VSInv s) :
    VSInv (VectorStore.applyOp s op) := by
  cases op with
  | clear =>
    exact ⟨rfl, fun i h =>
      absurd h (by simp [VectorStore.clear, VectorStore.applyOp])⟩
  | add chunks src =>
    show VSInv (VectorStore.add_documents s chunks src)
    unfold VectorStore.add_documents
    by_cases he : chunks.isEmpty
    · rw [if_pos he]; exact hs
    · rw [if_neg he]
      constructor
      · show (s.vectors ++ chunks.map fun c => s.embedding_model c.text).length =
          (appendMeta (src.getD []) s.metadata chunks).length
        rw [appendMeta_length]
        simp [hs.1]
      · intro i h
        exact appendMeta_chunk_index (src.getD []) chunks s.metadata hs.2 i h

/-- C1: for every sequence of `add_documents` and `clear` operations
starting from a freshly constructed `VectorStore`, the number of vectors
in the numeric store equals the length of the metadata sequence, and
every metadata entry's `chunk_index` equals its position in that
sequence.  (Quantifying over all operation lists covers the state after
each prefix, i.e. after each operation.) -/
theorem vectorStore_parallel_invariant (st : String → EmbedModel)
    (name : String) (d : Nat) (ops : List VSOp) :
    VSInv (ops.foldl VectorStore.applyOp (VectorStore.init st name d)) := by
  have main : ∀ (l : List VSOp) (s : VectorStore), VSInv s →
      VSInv (l.foldl VectorStore.applyOp s) := by
    intro l
    induction l with
    | nil => intro s hs; exact hs
    | cons op rest ih => intro s hs; exact ih _ (applyOp_inv s op hs)
  exact main ops _ ⟨rfl, fun i h => absurd h (by simp [VectorStore.init])⟩

/-- C4 (amended): in the result-building loop of `search`, every hit
whose returned position is at least the metadata length is skipped and
produces no result (and causes no fault); a negative position is NOT
skipped: a position in `[-len, -1]` is joined — by Python negative
indexing — to the metadata entry at `len + position`, and a position
below `-len` raises an `IndexError`. -/
theorem search_hits_behavior :
    (∀ (md : List Metadata) (hits : List (ℚ × Int)),
      (∀ p ∈ hits, (md.length : Int) ≤ p.2) → buildResults md hits = some []) ∧
    (∀ (md : List Metadata) (d : ℚ) (i : Int),
      -(md.length : Int) ≤ i → i < 0 →
      ∃ m, pyGetMeta md i = some m ∧
        buildResults md [(d, i)] = some [mkResult m d i]) ∧
    (∀ (md : List Metadata) (d : ℚ) (i : Int), i < -(md.length : Int) →
      buildResults md [(d, i)] = none) := by
  refine ⟨?_, ?_, ?_⟩
  · intro md hits
    induction hits with
    | nil => intro _; rfl
    | cons p rest ih =>
      intro hall
      obtain ⟨d, idx⟩ := p
      have hskip : ¬ idx < (md.length : Int) := by
        have := hall (d, idx) (List.mem_cons_self _ _)
        omega
      unfold buildResults
      rw [if_neg hskip]
      exact ih (fun p hp => hall p (List.mem_cons_of_mem _ hp))
  · intro md d i h1 h2
    have hidx : (i + (md.length : Int)).toNat < md.length := by omega
    have hget : pyGetMeta md i = some md[(i + (md.length : Int)).toNat] := by
      unfold pyGetMeta
      rw [if_neg (by omega), if_pos (by omega)]
      exact List.getElem?_eq_getElem hidx
    refine ⟨md[(i + (md.length : Int)).toNat], hget, ?_⟩
    unfold buildResults
    rw [if_pos (by omega), hget]
    rfl
  · intro md d i h1
    unfold buildResults
    rw [if_pos (by omega)]
    have hget : pyGetMeta md i = none := by
      unfold pyGetMeta
      rw [if_neg (by omega), if_neg (by omega)]
    rw [hget]

/-- The two metadata entries of the C4 counterexample. -/
def mA : Metadata := ⟨"A", some 0, [], none, none⟩

/-- Second metadata entry of the C4 counterexample. -/
def mB : Metadata := ⟨"B", some 1, [], none, none⟩

theorem search_hits_behavior_witness :
    buildResults [mA, mB] [((2 : ℚ), (5 : Int))] = some [] ∧
    (∃ m, pyGetMeta [mA, mB] (-1) = some m ∧
      buildResults [mA, mB] [((3 : ℚ), (-1 : Int))] = some [mkResult m 3 (-1)]) ∧
    buildResults [mA, mB] [((3 : ℚ), (-7 : Int))] = none :=
  ⟨search_hits_behavior.1 [mA, mB] [(2, 5)]
    (by intro p hp; rw [List.mem_singleton] at hp; subst hp; decide),
   search_hits_behavior.2.1 [mA, mB] 3 (-1) (by decide) (by decide),
   search_hits_behavior.2.2 [mA, mB] 3 (-7) (by decide)⟩

/-- C4 counterexample: with two metadata entries, a hit with the FAISS
sentinel position `-1` is NOT skipped (`-1 < len(metadata)` holds), and
`self.metadata[-1]` silently joins it to the LAST metadata entry (`mB`),
so a Retrieval Result IS produced, contradicting the claim that such a
hit is skipped. -/
theorem search_negative_index_not_skipped :
    buildResults [mA, mB] [((3 : ℚ), (-1 : Int))] = some [mkResult mB 3 (-1)] ∧
    mkResult mB 3 (-1) = ⟨"B", 3, 1 / 4, [], 1⟩ ∧
    buildResults [mA, mB] [((3 : ℚ), (-1 : Int))] ≠ some [] := by
  refine ⟨rfl, ?_, ?_⟩
  · show (⟨"B", 3, 1 / (1 + 3), [], 1⟩ : SearchResult) = ⟨"B", 3, 1 / 4, [], 1⟩
    norm_num
  · intro hcontra
    rw [show buildResults [mA, mB] [((3 : ℚ), (-1 : Int))] =
      some [mkResult mB 3 (-1)] from rfl] at hcontra
    simp at hcontra

/-- C5: every result emitted by the result-building loop of `search` has
`similarity = 1 / (1 + score)`; as a function of a non-negative score it
is strictly decreasing, lies in `(0, 1]`, and equals `1` exactly when
the score is `0`. -/
theorem search_similarity_spec :
    (∀ (md : List Metadata) (hits : List (ℚ × Int)) (res : List SearchResult)
      (r : SearchResult), buildResults md hits = some res → r ∈ res →
        r.similarity = 1 / (1 + r.score)) ∧
    (∀ d1 d2 : ℚ, 0 ≤ d1 → d1 < d2 → 1 / (1 + d2) < 1 / (1 + d1)) ∧
    (∀ d : ℚ, 0 ≤ d → 0 < 1 / (1 + d) ∧ 1 / (1 + d) ≤ 1) ∧
    (∀ d : ℚ, 0 ≤ d → (1 / (1 + d) = 1 ↔ d = 0)) := by
  refine ⟨?_, ?_, ?_, ?_⟩
  · intro md hits
    induction hits with
    | nil =>
      intro res r hres hr
      rw [show buildResults md [] = some [] from rfl] at hres
      obtain rfl := Option.some_inj.mp hres
      simp at hr
    | cons p rest ih =>
      intro res r hres hr
      obtain ⟨d, idx⟩ := p
      unfold buildResults at hres
      by_cases hlt : idx < (md.length : Int)
      · rw [if_pos hlt] at hres
        cases hget : pyGetMeta md idx with
        | none => rw [hget] at hres; simp at hres
        | some m =>
          rw [hget] at hres
          obtain ⟨res2, hres2, hres3⟩ := Option.map_eq_some'.mp hres
          subst hres3
          rcases List.mem_cons.mp hr with hhead | htail
          · subst hhead; rfl
          · exact ih res2 r hres2 htail
      · rw [if_neg hlt] at hres
        exact ih res r hres hr
  · intro d1 d2 h1 h2
    rw [div_lt_div_iff₀ (by linarith : (0 : ℚ) < 1 + d2)
      (by linarith : (0 : ℚ) < 1 + d1)]
    linarith
  · intro d hd
    constructor
    · exact one_div_pos.mpr (by linarith)
    · rw [div_le_one (by linarith : (0 : ℚ) < 1 + d)]
      linarith
  · intro d hd
    constructor
    · intro h
      have h2 : (1 : ℚ) = 1 + d :=
        div_eq_one_iff_eq (by linarith : (1 : ℚ) + d ≠ 0) |>.mp h
      linarith
    · intro h
      subst h
      norm_num

theorem search_similarity_spec_witness :
    ((1 : ℚ) / (1 + 2) < 1 / (1 + 1)) ∧
    (0 < (1 : ℚ) / (1 + 1) ∧ (1 : ℚ) / (1 + 1) ≤ 1) ∧
    ((1 : ℚ) / (1 + 0) = 1 ↔ (0 : ℚ) = 0) ∧
    (∀ r ∈ [mkResult mB 3 (-1)], r.similarity = 1 / (1 + r.score)) :=
  ⟨search_similarity_spec.2.1 1 2 (by norm_num) (by norm_num),
   search_similarity_spec.2.2.1 1 (by norm_num),
   search_similarity_spec.2.2.2 0 (by norm_num),
   fun r hr => search_similarity_spec.1 [mA, mB] [(3, -1)] [mkResult mB 3 (-1)]
     r rfl hr⟩

/-- C6: when the generation provider fails on every request, `query`
still returns a Query Result (no exception propagates): its `answer` is
the descriptive error message built from the provider error, and its
`retrieved_docs` and `context` are exactly the values produced by the
earlier retrieval and context-assembly steps. -/
theorem query_provider_failure (llm : LLMRequest → Except String String)
    (eng : RAGEngine) (question : String) (top_k : Nat) (temperature : ℚ)
    (e : String) (retrieved : List SearchResult)
    (hfail : ∀ r, llm r = Except.error e)
    (hsearch : VectorStore.search eng.vector_store question top_k =
      some retrieved) :
    RAGEngine.query llm eng question top_k temperature =
      some ⟨"Error generating answer: " ++ e, retrieved,
        build_context retrieved⟩ := by
  unfold RAGEngine.query
  simp only [hsearch]
  rw [hfail]

/-- A store with an empty index, used by the C6 and C8 witnesses. -/
def emptyStore : VectorStore :=
  ⟨fun _ => [1], "all-MiniLM-L6-v2", 384, [], []⟩

/-- A one-line engine over the empty store, used by the C6 witness. -/
def engW : RAGEngine := ⟨emptyStore, "gpt-3.5-turbo"⟩

theorem query_provider_failure_witness :
    RAGEngine.query (fun _ => Except.error "boom") engW "q" 3 (7 / 10) =
      some ⟨"Error generating answer: " ++ "boom", [], build_context []⟩ :=
  query_provider_failure (fun _ => Except.error "boom") engW "q" 3 (7 / 10)
    "boom" [] (fun _ => rfl) rfl

/-- C7: on any non-empty store, `save` then `clear` then `load` (with
both artifacts present) restores a state whose `get_stats` and `search`
results are identical to the pre-clear state. -/
theorem save_clear_load_roundtrip (s : VectorStore) (q : String) (k : Nat)
    (hne : s.vectors ≠ []) :
    VectorStore.get_stats (VectorStore.load (VectorStore.clear s)
        (some (VectorStore.save s).1) (some (VectorStore.save s).2)) =
      VectorStore.get_stats s ∧
    VectorStore.search (VectorStore.load (VectorStore.clear s)
        (some (VectorStore.save s).1) (some (VectorStore.save s).2)) q k =
      VectorStore.search s q k := by
  have h : VectorStore.load (VectorStore.clear s) (some (VectorStore.save s).1)
      (some (VectorStore.save s).2) = s := by
    cases s
    rfl
  rw [h]
  exact ⟨rfl, rfl⟩

/-- A non-empty store used by the C7 witness. -/
def storeW : VectorStore :=
  ⟨fun _ => [1], "all-MiniLM-L6-v2", 384, [[2]], [mA]⟩

theorem save_clear_load_roundtrip_witness :
    VectorStore.get_stats (VectorStore.load (VectorStore.clear storeW)
        (some (VectorStore.save storeW).1) (some (VectorStore.save storeW).2)) =
      VectorStore.get_stats storeW ∧
    VectorStore.search (VectorStore.load (VectorStore.clear storeW)
        (some (VectorStore.save storeW).1) (some (VectorStore.save storeW).2))
        "q" 5 =
      VectorStore.search storeW "q" 5 :=
  save_clear_load_roundtrip storeW "q" 5 (by simp [storeW])

/-- C8: `search` on a store holding zero entries returns the empty result
sequence and sends nothing to the embedding provider (the encode-call
trace is empty). -/
theorem search_empty_index (s : VectorStore) (q : String) (top_k : Nat)
    (h : s.vectors = []) :
    VectorStore.searchTrace s q top_k = (some [], []) := by
  unfold VectorStore.searchTrace
  rw [h]
  rfl

theorem search_empty_index_witness :
    VectorStore.searchTrace emptyStore "anything" 5 = (some [], []) :=
  search_empty_index emptyStore "anything" 5 rfl

/-- C9: `search` and `query` are read-only with respect to the
`VectorStore`: in state-passing form the numeric store contents, the
metadata sequence, the dimension and the model name are all unchanged
(the source methods contain no assignment to the store). -/
theorem search_query_readonly :
    (∀ (s : VectorStore) (q : String) (k : Nat),
      (VectorStore.searchM s q k).2.vectors = s.vectors ∧
      (VectorStore.searchM s q k).2.metadata = s.metadata ∧
      (VectorStore.searchM s q k).2.dimension = s.dimension ∧
      (VectorStore.searchM s q k).2.model_name = s.model_name) ∧
    (∀ (llm : LLMRequest → Except String String) (eng : RAGEngine)
      (question : String) (k : Nat) (temp : ℚ),
      (RAGEngine.queryM llm eng question k temp).2.vector_store.vectors =
        eng.vector_store.vectors ∧
      (RAGEngine.queryM llm eng question k temp).2.vector_store.metadata =
        eng.vector_store.metadata ∧
      (RAGEngine.queryM llm eng question k temp).2.vector_store.dimension =
        eng.vector_store.dimension ∧
      (RAGEngine.queryM llm eng question k temp).2.vector_store.model_name =
        eng.vector_store.model_name) :=
  ⟨fun _ _ _ => ⟨rfl, rfl, rfl, rfl⟩, fun _ _ _ _ _ => ⟨rfl, rfl, rfl, rfl⟩⟩

/-- C10: the constructor's `dimension` parameter has no effect: two
stores constructed with the same model name and different dimension
arguments are identical, and the stored dimension is the one reported by
the embedding model. -/
theorem init_dimension_ignored (st : String → EmbedModel) (name : String)
    (d1 d2 : Nat) :
    VectorStore.init st name d1 = VectorStore.init st name d2 ∧
    (VectorStore.init st name d1).dimension = (st name).dim :=
  ⟨rfl, rfl⟩
